import Mathlib

/-!
Verification of the editing engine of the iced-code-editor repository:
a shallow embedding, at character granularity, of the text buffer
(src/iced-code-editor/src/text_buffer.rs), the reversible command system
(canvas_editor/command.rs), the undo/redo history (canvas_editor/history.rs),
search (canvas_editor/search.rs), selection normalization
(canvas_editor/selection.rs) and the scroll cache-window heuristic
(canvas_editor/update.rs).

Rust strings are modelled as `List Char` (one entry per Unicode scalar).
Every byte index produced by the source's `char_to_byte_index` lies on a
character boundary, and all slicing in the embedded functions happens at
such boundaries, so the byte-level operations of the source correspond
one-to-one to the character-level list operations used here.
-/

set_option maxRecDepth 4000

/-- Cursor / match position: `(line, column)`, both zero-based,
column counted in characters. -/
abbrev Pos := Nat × Nat

/-- Embedding of `TextBuffer` (text_buffer.rs): the document as a list of
lines, each line a list of characters, newline characters not stored. -/
structure TextBuffer where
  lines : List (List Char)
  deriving Repr, DecidableEq

namespace TextBuffer

/-- `TextBuffer::line_count`. -/
def line_count (b : TextBuffer) : Nat := b.lines.length

/-- `TextBuffer::line`: the line at `index`, or the empty string when out
of range (`map_or("", ...)`). -/
def line (b : TextBuffer) (index : Nat) : List Char := b.lines.getD index []

/-- `TextBuffer::line_len`: character count of a line, 0 when out of range. -/
def line_len (b : TextBuffer) (l : Nat) : Nat := (b.lines.getD l []).length

/-- Character-level image of `TextBuffer::char_to_byte_index`: the source
returns the byte offset of character `char_index`, clamped to the end of
the string when the index is past the last character
(`map_or(s.len(), ...)`); at character granularity that is
`min char_index s.length`. -/
def char_to_byte_index (s : List Char) (char_index : Nat) : Nat :=
  min char_index s.length

/-- `TextBuffer::insert_char`: no-op when `line` is out of range, else the
character is inserted at the (clamped) column. -/
def insert_char (b : TextBuffer) (l col : Nat) (ch : Char) : TextBuffer :=
  if l ≥ b.lines.length then b
  else
    let s := b.lines.getD l []
    ⟨b.lines.set l (s.insertIdx (char_to_byte_index s col) ch)⟩

/-- `TextBuffer::insert_newline`: no-op when `line` is out of range, else
splits the line at the (clamped) column, the tail becoming a new line
right after. -/
def insert_newline (b : TextBuffer) (l col : Nat) : TextBuffer :=
  if l ≥ b.lines.length then b
  else
    let s := b.lines.getD l []
    let p := char_to_byte_index s col
    ⟨(b.lines.set l (s.take p)).insertIdx (l + 1) (s.drop p)⟩

/-- `TextBuffer::delete_char` (backspace): with `col > 0` removes the
character before `col` in the line (when the line exists and the clamped
position is positive); with `col = 0` and `line > 0` merges the line into
the previous one and reports the merge through the returned Bool.
The source's merge branch indexes `self.lines[line]` unconditionally and
would panic for an out-of-range `line`; that branch is unreachable from
the claims considered here and is modelled as a no-op. -/
def delete_char (b : TextBuffer) (l col : Nat) : TextBuffer × Bool :=
  if 0 < col then
    if l < b.lines.length then
      let s := b.lines.getD l []
      let bytePos := char_to_byte_index s col
      if 0 < bytePos then
        let charStart := char_to_byte_index s (col - 1)
        (⟨b.lines.set l (s.take charStart ++ s.drop bytePos)⟩, false)
      else (b, false)
    else (b, false)
  else if 0 < l then
    if l < b.lines.length then
      let cur := b.lines.getD l []
      let rest := b.lines.eraseIdx l
      (⟨rest.set (l - 1) (rest.getD (l - 1) [] ++ cur)⟩, true)
    else (b, true)
  else (b, false)

/-- `TextBuffer::delete_forward` (delete key): no-op when `line` is out of
range; removes the character at `col` when one exists, else merges the
next line into the current one when there is a next line. -/
def delete_forward (b : TextBuffer) (l col : Nat) : TextBuffer :=
  if l ≥ b.lines.length then b
  else
    let s := b.lines.getD l []
    if col < s.length then
      let p := char_to_byte_index s col
      let q := char_to_byte_index s (col + 1)
      ⟨b.lines.set l (s.take p ++ s.drop q)⟩
    else if l + 1 < b.lines.length then
      let nxt := b.lines.getD (l + 1) []
      ⟨(b.lines.eraseIdx (l + 1)).set l (s ++ nxt)⟩
    else b

/-- `TextBuffer::replace_range`: no-op when `line` is out of range; removes
the characters between the clamped start and end columns and inserts
`new_text` in their place. -/
def replace_range (b : TextBuffer) (l colStart length : Nat)
    (newText : List Char) : TextBuffer :=
  if l ≥ b.lines.length then b
  else
    let s := b.lines.getD l []
    let startB := char_to_byte_index s colStart
    let endB := char_to_byte_index s (colStart + length)
    ⟨b.lines.set l (s.take startB ++ newText ++ s.drop endB)⟩

/-- `TextBuffer::to_string`: lines joined with a newline, no trailing
newline. -/
def toText (b : TextBuffer) : List Char :=
  (b.lines.intersperse ['\n']).flatten

end TextBuffer

/-- Embedding of the `Command` variants (command.rs).  Each constructor
carries exactly the captured fields of the corresponding Rust struct;
`composite` is `CompositeCommand` (its description string is discarded by
the source constructor and therefore not modelled). -/
inductive Cmd where
  | insertChar (line col : Nat) (ch : Char)
      (cursorBefore cursorAfter : Pos)
  | deleteChar (line col : Nat) (deletedChar : Option Char)
      (mergedLine : Bool) (mergedContent : Option (List Char))
      (cursorBefore cursorAfter : Pos)
  | deleteForward (line col : Nat) (deletedChar : Option Char)
      (mergedNextLine : Bool) (nextLineContent : Option (List Char))
      (cursorBefore : Pos)
  | insertNewline (line col : Nat) (cursorBefore cursorAfter : Pos)
  | insertText (line col : Nat) (text : List Char)
      (cursorBefore cursorAfter : Pos)
  | deleteRange (rangeStart rangeEnd : Pos) (deletedText : List Char)
      (cursorBefore : Pos)
  | replaceText (position : Pos) (oldText newText : List Char)
      (cursorBefore cursorAfter : Pos)
  | composite (commands : List Cmd)

/-- `InsertCharCommand::new`. -/
def mkInsertChar (line col : Nat) (ch : Char) (cursor : Pos) : Cmd :=
  .insertChar line col ch cursor (line, col + 1)

/-- `DeleteCharCommand::new`: captures the deleted character, or for the
`col = 0, line > 0` case the content of the line about to be merged into
the previous one together with the merge cursor target. -/
def mkDeleteChar (b : TextBuffer) (line col : Nat) (cursor : Pos) : Cmd :=
  if 0 < col then
    .deleteChar line col ((b.line line).get? (col - 1)) false none
      cursor (line, col - 1)
  else if 0 < line then
    .deleteChar line col none true (some (b.line line))
      cursor (line - 1, b.line_len (line - 1))
  else
    .deleteChar line col none false none cursor cursor

/-- `DeleteForwardCommand::new`. -/
def mkDeleteForward (b : TextBuffer) (line col : Nat) (cursor : Pos) : Cmd :=
  if col < b.line_len line then
    .deleteForward line col ((b.line line).get? col) false none cursor
  else if line + 1 < b.line_count then
    .deleteForward line col none true (some (b.line (line + 1))) cursor
  else
    .deleteForward line col none false none cursor

/-- `InsertNewlineCommand::new`. -/
def mkInsertNewline (line col : Nat) (cursor : Pos) : Cmd :=
  .insertNewline line col cursor (line + 1, 0)

/-- The line decomposition `text.split('\n')` used by
`InsertTextCommand::new` to compute the final cursor. -/
def splitNl (text : List Char) : List (List Char) :=
  text.splitOn '\n'

/-- `InsertTextCommand::new`: the final cursor is behind the inserted text
(same line for single-line text, else at the end of its last line). -/
def mkInsertText (line col : Nat) (text : List Char) (cursor : Pos) : Cmd :=
  let parts := splitNl text
  let cursorAfter :=
    if parts.length = 1 then (line, col + text.length)
    else (line + parts.length - 1, (parts.getLastD []).length)
  .insertText line col text cursor cursorAfter

/-- Text extraction of `DeleteRangeCommand::new`: the characters between
`rangeStart` and `rangeEnd` (with the source's clamping), newlines
included between lines. -/
def deleteRangeText (b : TextBuffer) (s e : Pos) : List Char :=
  if s.1 = e.1 then
    let chars := b.line s.1
    chars.drop s.2 |>.take (min (e.2 - s.2) (chars.length - s.2))
  else
    ((List.range (e.1 + 1 - s.1)).map (fun k => s.1 + k)).flatMap
      (fun idx =>
        let chars := b.line idx
        if idx = s.1 then chars.drop s.2 ++ ['\n']
        else if idx = e.1 then chars.take (min e.2 chars.length)
        else chars ++ ['\n'])

/-- `DeleteRangeCommand::new`. -/
def mkDeleteRange (b : TextBuffer) (s e : Pos) (cursor : Pos) : Cmd :=
  .deleteRange s e (deleteRangeText b s e) cursor

/-- `ReplaceTextCommand::new`: captures the `old_text_len` characters at
`position` as the old text; the cursor lands after the new text. -/
def mkReplaceText (b : TextBuffer) (position : Pos) (oldTextLen : Nat)
    (newText : List Char) (cursor : Pos) : Cmd :=
  .replaceText position ((b.line position.1).drop position.2 |>.take oldTextLen)
    newText cursor (position.1, position.2 + newText.length)

/-- State threaded through command execution: buffer and cursor. -/
abbrev EdSt := TextBuffer × Pos

/-- One step of `InsertTextCommand::execute`: a newline splits the line,
any other character is inserted and advances the column. -/
def insertTextStep (st : TextBuffer × Pos) (ch : Char) : TextBuffer × Pos :=
  let (b, (l, c)) := st
  if ch = '\n' then (b.insert_newline l c, (l + 1, 0))
  else (b.insert_char l c ch, (l, c + 1))

/-- One step of `InsertTextCommand::undo`, consuming the inserted
characters in reverse. -/
def insertTextUndoStep (st : TextBuffer × Pos) (ch : Char) :
    TextBuffer × Pos :=
  let (b, (l, c)) := st
  if ch = '\n' then
    if 0 < l then
      let prevLen := b.line_len (l - 1)
      ((b.delete_char l 0).1, (l - 1, prevLen))
    else (b, (l, c))
  else
    if 0 < c then ((b.delete_char l c).1, (l, c - 1))
    else (b, (l, c))

/-- The character count deleted by `DeleteRangeCommand::execute`,
computed against the buffer at execution time exactly as the source
does (usize subtractions modelled by truncated Nat subtraction; the
normalized in-range selections produced by the editor never underflow). -/
def deleteRangeCount (b : TextBuffer) (s e : Pos) : Nat :=
  if s.1 = e.1 then e.2 - s.2
  else
    (b.line_len s.1 - s.2 + 1) +
    (((List.range (e.1 - (s.1 + 1))).map (fun k => s.1 + 1 + k)).map
      (fun idx => b.line_len idx + 1)).sum +
    e.2

mutual

/-- `Command::execute` for every variant (command.rs); a composite runs its
sub-commands in insertion order. -/
def execCmd : Cmd → EdSt → EdSt
  | .insertChar l c ch _ ca, (b, _) => (b.insert_char l c ch, ca)
  | .deleteChar l c _ _ _ _ ca, (b, _) => ((b.delete_char l c).1, ca)
  | .deleteForward l c _ _ _ cb, (b, _) => (b.delete_forward l c, cb)
  | .insertNewline l c _ ca, (b, _) => (b.insert_newline l c, ca)
  | .insertText l c text _ ca, (b, _) =>
      ((text.foldl insertTextStep (b, (l, c))).1, ca)
  | .deleteRange s e _ _, (b, _) =>
      if s = e then (b, s)
      else
        let n := deleteRangeCount b s e
        ((List.range n).foldl (fun bb _ => bb.delete_forward s.1 s.2) b, s)
  | .replaceText p oldT newT _ ca, (b, _) =>
      (b.replace_range p.1 p.2 oldT.length newT, ca)
  | .composite cmds, st => execCmds cmds st

/-- Sequential execution of a composite's sub-command list
(`for cmd in &mut self.commands { cmd.execute(...) }`). -/
def execCmds : List Cmd → EdSt → EdSt
  | [], st => st
  | c :: cs, st => execCmds cs (execCmd c st)

end

mutual

/-- `Command::undo` for every variant (command.rs); a composite undoes its
sub-commands in reverse order. -/
def undoCmd : Cmd → EdSt → EdSt
  | .insertChar l c _ cb _, (b, _) => (b.delete_forward l c, cb)
  | .deleteChar l c dc merged mc cb ca, (b, _) =>
      if merged then
        match mc with
        | some content =>
            let b1 := b.insert_newline ca.1 ca.2
            let b2 := content.enum.foldl
              (fun bb (p : Nat × Char) => bb.insert_char l p.1 p.2) b1
            (b2, cb)
        | none => (b, cb)
      else
        match dc with
        | some ch => (b.insert_char l (c - 1) ch, cb)
        | none => (b, cb)
  | .deleteForward l c dc merged nc cb, (b, _) =>
      if merged then
        match nc with
        | some content =>
            let b1 := b.insert_newline l c
            let n := b1.line_len (l + 1)
            let b2 := (List.range n).foldl
              (fun bb _ => bb.delete_forward (l + 1) 0) b1
            let b3 := content.enum.foldl
              (fun bb (p : Nat × Char) => bb.insert_char (l + 1) p.1 p.2) b2
            (b3, cb)
        | none => (b, cb)
      else
        match dc with
        | some ch => (b.insert_char l c ch, cb)
        | none => (b, cb)
  | .insertNewline l _ cb _, (b, _) =>
      if l + 1 < b.line_count then ((b.delete_char (l + 1) 0).1, cb)
      else (b, cb)
  | .insertText _ _ text cb ca, (b, _) =>
      ((text.reverse.foldl insertTextUndoStep (b, ca)).1, cb)
  | .deleteRange s _ deleted cb, (b, _) =>
      ((deleted.foldl insertTextStep (b, s)).1, cb)
  | .replaceText p oldT newT cb _, (b, _) =>
      (b.replace_range p.1 p.2 newT.length oldT, cb)
  | .composite cmds, st => undoCmds cmds st

/-- Reverse-order undo of a composite's sub-command list
(`for cmd in self.commands.iter_mut().rev() { cmd.undo(...) }`). -/
def undoCmds : List Cmd → EdSt → EdSt
  | [], st => st
  | c :: cs, st => undoCmd c (undoCmds cs st)

end

/-- Embedding of `HistoryInner` (history.rs): the two command stacks
(`Vec` back = stack top, front = oldest), the size bound, the save point
and the open grouping composite (modelled by its accumulated command
list, since `CompositeCommand::new` discards its description). -/
structure HistoryInner where
  undoStack : List Cmd
  redoStack : List Cmd
  maxSize : Nat
  savePoint : Option Nat
  currentGroup : Option (List Cmd)

namespace HistoryInner

/-- `CommandHistory::new`. -/
def new (maxSize : Nat) : HistoryInner :=
  ⟨[], [], maxSize, none, none⟩

/-- The eviction step shared by `push` and `end_group_internal`: when the
undo stack exceeds `max_size`, drop its oldest (front) entry and move the
save point down, unsetting it when it was already at zero. -/
def evict (h : HistoryInner) : HistoryInner :=
  if h.undoStack.length > h.maxSize then
    { h with
      undoStack := h.undoStack.drop 1
      savePoint :=
        match h.savePoint with
        | some sp => if 0 < sp then some (sp - 1) else none
        | none => none }
  else h

/-- `CommandHistory::push`: while grouping, append into the open
composite; otherwise clear the redo stack, append to the undo stack and
enforce the size limit. -/
def push (h : HistoryInner) (c : Cmd) : HistoryInner :=
  match h.currentGroup with
  | some g => { h with currentGroup := some (g ++ [c]) }
  | none =>
      evict { h with redoStack := [], undoStack := h.undoStack ++ [c] }

/-- `CommandHistory::end_group_internal`: close the group; a non-empty
group is pushed as one composite (clearing redo, enforcing the limit),
an empty one is discarded. -/
def endGroup (h : HistoryInner) : HistoryInner :=
  match h.currentGroup with
  | none => h
  | some g =>
      if g.isEmpty then { h with currentGroup := none }
      else
        evict { h with
          currentGroup := none
          redoStack := []
          undoStack := h.undoStack ++ [Cmd.composite g] }

/-- `CommandHistory::begin_group`: opens a fresh empty composite when none
is open. -/
def beginGroup (h : HistoryInner) : HistoryInner :=
  match h.currentGroup with
  | none => { h with currentGroup := some [] }
  | some _ => h

/-- `CommandHistory::undo`: flushes any open group, then pops the undo
stack top, applies its `undo` and moves it to the redo stack; reports
whether anything was undone. -/
def undoH (h : HistoryInner) (b : TextBuffer) (cursor : Pos) :
    HistoryInner × TextBuffer × Pos × Bool :=
  let h1 := if h.currentGroup.isSome then h.endGroup else h
  match h1.undoStack.getLast? with
  | some c =>
      let (b2, cur2) := undoCmd c (b, cursor)
      ({ h1 with
          undoStack := h1.undoStack.dropLast
          redoStack := h1.redoStack ++ [c] }, b2, cur2, true)
  | none => (h1, b, cursor, false)

/-- `CommandHistory::redo`: pops the redo stack top, re-executes it and
moves it back to the undo stack. -/
def redoH (h : HistoryInner) (b : TextBuffer) (cursor : Pos) :
    HistoryInner × TextBuffer × Pos × Bool :=
  match h.redoStack.getLast? with
  | some c =>
      let (b2, cur2) := execCmd c (b, cursor)
      ({ h with
          redoStack := h.redoStack.dropLast
          undoStack := h.undoStack ++ [c] }, b2, cur2, true)
  | none => (h, b, cursor, false)

/-- `CommandHistory::mark_saved`. -/
def markSaved (h : HistoryInner) : HistoryInner :=
  { h with savePoint := some h.undoStack.length }

/-- `CommandHistory::is_modified`. -/
def isModified (h : HistoryInner) : Bool :=
  if h.currentGroup.isSome then true
  else
    match h.savePoint with
    | none => !h.undoStack.isEmpty
    | some sp => sp != h.undoStack.length

end HistoryInner

/-- Embedding of `SearchMatch` (search.rs). -/
structure SearchMatch where
  line : Nat
  col : Nat
  deriving Repr, DecidableEq

/-- Modelled from the Rust standard library's `str::to_lowercase`
(the Unicode lowercase mapping, applied character by character), on the
characters exercised by this development: the ASCII letters A-Z map to
their lowercase forms, LATIN CAPITAL LETTER E WITH ACUTE maps to its
lowercase form (one character of the same UTF-8 length), GREEK CAPITAL
LETTER SIGMA maps to the small sigma, and LATIN CAPITAL LETTER I WITH
DOT ABOVE (U+0130) maps — per the Unicode special casing the Rust
implementation follows — to the two-character sequence
i + COMBINING DOT ABOVE (U+0307), which is one byte longer than its
uppercase form.  Characters outside this table are mapped to themselves,
which is exact for every character without a lowercase mapping (digits,
punctuation, lowercase letters, CJK, ...). -/
def rustLowerChar (c : Char) : List Char :=
  if 'A' ≤ c ∧ c ≤ 'Z' then [Char.ofNat (c.toNat + 32)]
  else if c = 'É' then ['é']
  else if c = 'Σ' then ['σ']
  else if c = 'İ' then ['i', Char.ofNat 775]
  else [c]

/-- Lowercasing of a whole string (`to_lowercase`): concatenation of the
per-character lowercase mappings. -/
def lowerRs (s : List Char) : List Char := s.flatMap rustLowerChar

/-- The UTF-8 byte length of a string (`str::len`). -/
def byteLen (s : List Char) : Nat := (s.map Char.utf8Size).sum

/-- The character-index form of `find_matches`'s per-line scan loop
(`while let Some(relative_pos) = search_line[start_pos..].find(...)`):
walk the line left to right; at each position where the query is a
leading segment of the remaining text, record the position and jump
past the match, giving non-overlapping matches.  `lineOccsBytesF` below
is the byte-offset form actually used by the embedded `find_matches`;
it records byte offsets at exactly the same breakpoints (an occurrence
of valid UTF-8 inside valid UTF-8 can only start on a character
boundary, since a continuation byte never equals a first byte, so the
source's byte-level `find` stops exactly at these character positions).
The fuel argument equals the scanned suffix length at the outer call
and only bounds the recursion; each step consumes at least one
character, so it never runs out first. -/
def lineOccsF (q : List Char) : Nat → List Char → Nat → List Nat
  | 0, _, _ => []
  | _ + 1, [], _ => []
  | fuel + 1, ch :: rest, pos =>
      if (ch :: rest).take q.length = q then
        pos :: lineOccsF q fuel (rest.drop (q.length - 1)) (pos + q.length)
      else
        lineOccsF q fuel rest (pos + 1)

/-- All (non-overlapping, left-to-right) occurrence positions of `q` in
one line, as character indices. -/
def lineOccs (q s : List Char) : List Nat :=
  lineOccsF q s.length s 0

/-- The byte-offset form of the per-line scan loop: the same walk as
`lineOccsF`, but positions are byte offsets — a recorded match advances
the scan start by the query's byte length
(`start_pos = absolute_pos + search_query.len()`), a mismatch advances
past the current character's UTF-8 bytes. -/
def lineOccsBytesF (q : List Char) : Nat → List Char → Nat → List Nat
  | 0, _, _ => []
  | _ + 1, [], _ => []
  | fuel + 1, ch :: rest, pos =>
      if (ch :: rest).take q.length = q then
        pos :: lineOccsBytesF q fuel (rest.drop (q.length - 1))
          (pos + byteLen q)
      else
        lineOccsBytesF q fuel rest (pos + ch.utf8Size)

/-- All occurrence byte offsets of `q` in one line. -/
def lineOccsBytes (q s : List Char) : List Nat :=
  lineOccsBytesF q s.length s 0

/-- Model of the column conversion `line[..absolute_pos].chars().count()`
(search.rs): the number of characters of the original line that fit
completely within the first `absolute_pos` bytes.  When `absolute_pos`
is a character boundary of `line` within its byte length — always the
case when every character's lowercase mapping preserves its UTF-8
length — this is exactly the source's count; when it is not a boundary
the source's slicing panics (reachable only through length-changing
lowercasings), while this model returns the count of the characters
that do fit. -/
def colConvert : List Char → Nat → Nat
  | [], _ => 0
  | c :: rest, n =>
      if c.utf8Size ≤ n then colConvert rest (n - c.utf8Size) + 1 else 0

/-- Embedding of `find_matches` (search.rs): empty query gives no
matches; otherwise every line is scanned independently with the
(optionally lowercased) query against the (optionally lowercased) line;
each match's byte offset in the searched line is converted to a column
by counting characters of the original line within it. -/
def find_matches (b : TextBuffer) (query : List Char)
    (caseSensitive : Bool) : List SearchMatch :=
  if query.isEmpty then []
  else
    let searchQuery := if caseSensitive then query else lowerRs query
    (List.range b.line_count).flatMap (fun i =>
      let ln := b.line i
      let searchLine := if caseSensitive then ln else lowerRs ln
      (lineOccsBytes searchQuery searchLine).map
        (fun p => SearchMatch.mk i (colConvert ln p)))

/-- The mutable search fields of `SearchState` (search.rs) used by
replace-all; UI-only fields (dialog visibility, focus, input ids) are
not modelled. -/
structure SearchSt where
  query : List Char
  replaceWith : List Char
  caseSensitive : Bool
  matchList : List SearchMatch
  currentMatchIndex : Option Nat

/-- `SearchState::update_matches`: recompute the match list and clamp the
current index (none when empty, first when previously unset, last when
the old index fell off the end). -/
def updateMatchesS (ss : SearchSt) (b : TextBuffer) : SearchSt :=
  let ms := find_matches b ss.query ss.caseSensitive
  let idx :=
    if ms.isEmpty then none
    else
      match ss.currentMatchIndex with
      | none => some 0
      | some i => if i ≥ ms.length then some (ms.length - 1) else some i
  { ss with matchList := ms, currentMatchIndex := idx }

/-- The editor state touched by `handle_replace_all_msg` (update.rs):
buffer, cursor, history and search state. -/
structure EState where
  buffer : TextBuffer
  cursor : Pos
  history : HistoryInner
  search : SearchSt

/-- The composite built by `handle_replace_all_msg`: one
`ReplaceTextCommand` per match, the matches taken in reverse document
order, each command capturing its old text from the buffer as it is
before any replacement runs. -/
def replaceAllCommands (st : EState) (allMatches : List SearchMatch) :
    List Cmd :=
  allMatches.reverse.map (fun m =>
    mkReplaceText st.buffer (m.line, m.col) st.search.query.length
      st.search.replaceWith st.cursor)

/-- `handle_replace_all_msg` (update.rs): re-scan for all matches; when
any exist, build the composite over the matches in reverse order,
execute it once against buffer and cursor, push it once to history, and
refresh the match list against the mutated buffer. -/
def handleReplaceAll (st : EState) : EState :=
  let allMatches :=
    find_matches st.buffer st.search.query st.search.caseSensitive
  if allMatches.isEmpty then st
  else
    let comp := Cmd.composite (replaceAllCommands st allMatches)
    let (b2, cur2) := execCmd comp (st.buffer, st.cursor)
    { buffer := b2
      cursor := cur2
      history := st.history.push comp
      search := updateMatchesS st.search b2 }

/-- `CanvasEditor::get_selection_range` (selection.rs): with both
endpoints present, returns them ordered so that the start does not come
after the end in document order. -/
def get_selection_range (selStart selEnd : Option Pos) :
    Option (Pos × Pos) :=
  match selStart, selEnd with
  | some s, some e =>
      if s.1 < e.1 ∨ (s.1 = e.1 ∧ s.2 < e.2) then some (s, e)
      else some (e, s)
  | _, _ => none

/-- Document order on positions: earlier line, or same line and
column not larger. -/
def docLe (p q : Pos) : Prop :=
  p.1 < q.1 ∨ (p.1 = q.1 ∧ p.2 ≤ q.2)

/-- `floor` of a rational, as the Rust `f32::floor` of the exactly
represented values used here (`⌊q⌋ = q.num / q.den` on ℚ). -/
def ratFloor (q : ℚ) : ℤ := q.num / q.den

/-- `ceil` of a rational (`-⌊-q⌋`). -/
def ratCeil (q : ℚ) : ℤ := -ratFloor (-q)

/-- `|q|` written with a branch so concrete values evaluate by `decide`. -/
def ratAbs (q : ℚ) : ℚ := if q < 0 then -q else q

/-- `visible_lines_count = (height / line_height).ceil() as usize + 2`
(update.rs, `handle_scrolled_msg`); the `as usize` cast saturates
negative values to 0 as `Int.toNat` does. -/
def visibleLinesCount (height lineHeight : ℚ) : Nat :=
  (ratCeil (height / lineHeight)).toNat + 2

/-- `first_visible_line = (scroll / line_height).floor() as usize`. -/
def firstVisibleLine (scroll lineHeight : ℚ) : Nat :=
  (ratFloor (scroll / lineHeight)).toNat

/-- The scroll-window state of `CanvasEditor` read and written by
`handle_scrolled_msg`: the cached line window, the last first visible
line, the previous viewport scroll/size, and the fixed line height.
`cacheCleared` records whether the current call invalidated the canvas
cache (`self.cache.clear()`). -/
structure ScrollState where
  cacheWindowStartLine : Nat
  cacheWindowEndLine : Nat
  lastFirstVisibleLine : Nat
  viewportScroll : ℚ
  viewportHeight : ℚ
  viewportWidth : ℚ
  lineHeight : ℚ
  cacheCleared : Bool
  deriving Repr, DecidableEq

/-- `handle_scrolled_msg` (update.rs): derive the visible range from the
new scroll offset and viewport, pad it by
`margin = visible_lines_count * CACHE_WINDOW_MARGIN_MULTIPLIER` on both
sides to get the candidate window, and replace the stored window (also
clearing the render cache) exactly when the viewport size changed by
more than 1.0, or the scroll offset changed by more than 0.1 and either
the stored window is degenerate or a margin boundary was crossed — where
the lower-boundary trigger additionally requires the stored window start
to be positive (the source's top-of-file special case).  The multiplier
is kept as the parameter `mult`: `CACHE_WINDOW_MARGIN_MULTIPLIER` is
referenced but not defined in the provided sources (the repository's
tests use 2); no property below depends on its value. -/
def handleScrolled (st : ScrollState) (newScroll newHeight newWidth : ℚ)
    (mult : Nat) : ScrollState :=
  let scrollChanged := ratAbs (st.viewportScroll - newScroll) > 1/10
  let visible := visibleLinesCount newHeight st.lineHeight
  let firstVisible := firstVisibleLine newScroll st.lineHeight
  let lastVisible := firstVisible + visible
  let margin := visible * mult
  let windowStart := firstVisible - margin
  let windowEnd := lastVisible + margin
  let needRewindow :=
    if st.cacheWindowStartLine < st.cacheWindowEndLine then
      (0 < st.cacheWindowStartLine ∧
        firstVisible < st.cacheWindowStartLine + visible / 2) ∨
      st.cacheWindowEndLine - visible / 2 < lastVisible
    else True
  if ratAbs (st.viewportHeight - newHeight) > 1 ∨
      ratAbs (st.viewportWidth - newWidth) > 1 ∨
      (scrollChanged ∧ needRewindow) then
    { st with
      cacheWindowStartLine := windowStart
      cacheWindowEndLine := windowEnd
      lastFirstVisibleLine := firstVisible
      cacheCleared := true
      viewportScroll := newScroll
      viewportHeight := newHeight
      viewportWidth := newWidth }
  else
    { st with
      cacheCleared := false
      viewportScroll := newScroll
      viewportHeight := newHeight
      viewportWidth := newWidth }

/-- C8: every mutation primitive addressed at a line index at or past
`line_count` leaves the buffer unchanged (silent no-op), and backspace at
the very start of the document leaves the buffer unchanged and reports
no merge. -/
theorem out_of_range_line_is_noop (b : TextBuffer) (l col len : Nat)
    (ch : Char) (text : List Char) (h : l ≥ b.line_count) :
    b.insert_char l col ch = b ∧
    b.insert_newline l col = b ∧
    b.delete_forward l col = b ∧
    b.replace_range l col len text = b ∧
    b.delete_char 0 0 = (b, false) := by
  simp only [TextBuffer.line_count] at h
  refine ⟨?_, ?_, ?_, ?_, ?_⟩
  · simp [TextBuffer.insert_char, h]
  · simp [TextBuffer.insert_newline, h]
  · simp [TextBuffer.delete_forward, h]
  · simp [TextBuffer.replace_range, h]
  · simp [TextBuffer.delete_char]

/-- Witness for `out_of_range_line_is_noop` at a concrete buffer and an
out-of-range line. -/
theorem out_of_range_line_is_noop_witness :
    (⟨[['a']]⟩ : TextBuffer).line_count ≤ 3 ∧
    TextBuffer.insert_char ⟨[['a']]⟩ 3 0 'x' = ⟨[['a']]⟩ := by
  exact ⟨by decide,
    (out_of_range_line_is_noop ⟨[['a']]⟩ 3 0 1 'x' ['y'] (by decide)).1⟩

/-- C10: on a valid line, the character-to-byte conversion clamps the
column to the end of the line, so `insert_char` with an oversized column
appends at end-of-line, and `replace_range` with an oversized start
inserts at the line end (removing nothing) while an oversized extent
removes exactly up to the line end — columns beyond the line are
absorbed, not errors. -/
theorem oversized_column_clamps_to_line_end (b : TextBuffer)
    (l col len : Nat) (ch : Char) (text : List Char)
    (hl : l < b.line_count) :
    (b.line_len l ≤ col →
      (b.insert_char l col ch).lines = b.lines.set l (b.line l ++ [ch]) ∧
      (b.replace_range l col len text).lines
        = b.lines.set l (b.line l ++ text)) ∧
    (col ≤ b.line_len l → b.line_len l ≤ col + len →
      (b.replace_range l col len text).lines
        = b.lines.set l ((b.line l).take col ++ text)) := by
  simp only [TextBuffer.line_count] at hl
  simp only [TextBuffer.line_len, TextBuffer.line]
  constructor
  · intro hcol
    constructor
    · simp only [TextBuffer.insert_char, TextBuffer.char_to_byte_index]
      rw [if_neg (by omega), Nat.min_eq_right hcol,
        List.insertIdx_length_self]
    · simp only [TextBuffer.replace_range, TextBuffer.char_to_byte_index]
      rw [if_neg (by omega), Nat.min_eq_right hcol,
        Nat.min_eq_right (by omega), List.take_length, List.drop_length,
        List.append_nil]
  · intro hcol hext
    simp only [TextBuffer.replace_range, TextBuffer.char_to_byte_index]
    rw [if_neg (by omega), Nat.min_eq_left hcol, Nat.min_eq_right hext,
      List.drop_length, List.append_nil]

/-- Witness for `oversized_column_clamps_to_line_end`: inserting at column
9 of the 2-character line appends at its end. -/
theorem oversized_column_clamps_to_line_end_witness :
    0 < (⟨[['h','i']]⟩ : TextBuffer).line_count ∧
    (⟨[['h','i']]⟩ : TextBuffer).line_len 0 ≤ 9 ∧
    (TextBuffer.insert_char ⟨[['h','i']]⟩ 0 9 '!').lines
      = [['h','i','!']] := by
  refine ⟨by decide, by decide, ?_⟩
  have h := ((oversized_column_clamps_to_line_end ⟨[['h','i']]⟩ 0 9 1 '!'
    ['y'] (by decide)).1 (by decide)).1
  simpa using h

/-- C1 (the code violates the claim): for the backspace line-merge case,
`DeleteCharCommand::undo` first restores the split correctly with
`insert_newline` — which already carries the merged tail into the new
line — and then inserts the captured content into that line again
without clearing it, so execute-then-undo duplicates the merged line's
content instead of restoring the pre-execute buffer. -/
theorem deleteChar_merge_execute_undo_corrupts :
    (undoCmd (mkDeleteChar ⟨[['a','b'], ['c','d']]⟩ 1 0 (1, 0))
        (execCmd (mkDeleteChar ⟨[['a','b'], ['c','d']]⟩ 1 0 (1, 0))
          (⟨[['a','b'], ['c','d']]⟩, (1, 0)))).1
      = ⟨[['a','b'], ['c','d','c','d']]⟩ ∧
    (⟨[['a','b'], ['c','d','c','d']]⟩ : TextBuffer)
      ≠ ⟨[['a','b'], ['c','d']]⟩ := by
  decide

/-- C9: the normalized selection range always has its start at or before
its end in document order, and swapping the two endpoints at
construction yields exactly the same normalized pair. -/
theorem selection_range_normalized (a b : Pos) :
    (∀ p q, get_selection_range (some a) (some b) = some (p, q) →
      docLe p q) ∧
    get_selection_range (some a) (some b)
      = get_selection_range (some b) (some a) := by
  obtain ⟨a1, a2⟩ := a
  obtain ⟨b1, b2⟩ := b
  constructor
  · intro p q hpq
    simp only [get_selection_range] at hpq
    split at hpq <;>
      (cases hpq; unfold docLe; simp_all; omega)
  · simp only [get_selection_range]
    split <;> split <;> rename_i h1 h2 <;>
      first
      | rfl
      | (simp only [Option.some.injEq, Prod.mk.injEq]; omega)

/-- Witness for `selection_range_normalized`: a backwards-constructed
single-line selection normalizes with start before end. -/
theorem selection_range_normalized_witness :
    get_selection_range (some (0, 5)) (some (0, 0)) = some ((0, 0), (0, 5)) ∧
    docLe (0, 0) (0, 5) := by
  refine ⟨by decide, ?_⟩
  exact (selection_range_normalized (0, 5) (0, 0)).1 (0, 0) (0, 5) (by decide)

/-- C5: `is_modified` is true exactly when a group is open, or no save
point exists and the undo stack is non-empty, or the save point differs
from the undo-stack length; and `mark_saved` pins the save point to the
current length, so it reports unmodified right after (no group open). -/
theorem is_modified_spec (h : HistoryInner) :
    (h.isModified = true ↔
      h.currentGroup.isSome = true ∨
      (h.savePoint = none ∧ h.undoStack ≠ []) ∨
      (∃ sp, h.savePoint = some sp ∧ sp ≠ h.undoStack.length)) ∧
    (h.currentGroup = none → h.markSaved.isModified = false) := by
  constructor
  · unfold HistoryInner.isModified
    rcases hg : h.currentGroup with _ | g <;>
      rcases hs : h.savePoint with _ | sp <;>
        simp [hg, hs, List.isEmpty_iff]
  · intro hg
    simp [HistoryInner.isModified, HistoryInner.markSaved, hg]

/-- Witness for `is_modified_spec`: after one push into a fresh history,
`mark_saved` makes `is_modified` false. -/
theorem is_modified_spec_witness :
    (((HistoryInner.new 10).push
        (mkInsertChar 0 0 'a' (0, 0))).currentGroup = none) ∧
    (((HistoryInner.new 10).push
        (mkInsertChar 0 0 'a' (0, 0))).markSaved.isModified = false) := by
  refine ⟨rfl, ?_⟩
  exact (is_modified_spec
    ((HistoryInner.new 10).push (mkInsertChar 0 0 'a' (0, 0)))).2 rfl

/-- The three single-character commands of the grouped-typing scenario:
typing `a`, `b`, `c` at the start of an initially empty buffer. -/
def abcCmd1 : Cmd := mkInsertChar 0 0 'a' (0, 0)

/-- Second keystroke of the grouped-typing scenario. -/
def abcCmd2 : Cmd := mkInsertChar 0 1 'b' (0, 1)

/-- Third keystroke of the grouped-typing scenario. -/
def abcCmd3 : Cmd := mkInsertChar 0 2 'c' (0, 2)

/-- History after `begin_group`, pushing the three keystrokes, and
`end_group`. -/
def abcHistory : HistoryInner :=
  (((((HistoryInner.new 10).beginGroup).push abcCmd1).push abcCmd2).push
    abcCmd3).endGroup

/-- C4: while a group is open, `push` appends into the open composite and
leaves the undo stack untouched; `end_group` on an empty composite adds
nothing; and the concrete grouped typing of "abc" yields exactly one
undo entry whose single undo removes all three characters. -/
theorem grouping_collapses_to_one_undo :
    (∀ (h : HistoryInner) (c : Cmd) (g : List Cmd),
      h.currentGroup = some g →
        h.push c = { h with currentGroup := some (g ++ [c]) }) ∧
    (∀ h : HistoryInner, h.currentGroup = some [] →
      h.endGroup = { h with currentGroup := none }) ∧
    ((execCmds [abcCmd1, abcCmd2, abcCmd3] (⟨[[]]⟩, (0, 0))).1
        = ⟨[['a','b','c']]⟩ ∧
      abcHistory.undoStack.length = 1 ∧
      (abcHistory.undoH ⟨[['a','b','c']]⟩ (0, 3)).2.1 = ⟨[[]]⟩ ∧
      (abcHistory.undoH ⟨[['a','b','c']]⟩ (0, 3)).2.2.1 = (0, 0) ∧
      (abcHistory.undoH ⟨[['a','b','c']]⟩ (0, 3)).2.2.2 = true) := by
  refine ⟨?_, ?_, by decide, by decide, by decide, by decide, by decide⟩
  · intro h c g hg
    simp [HistoryInner.push, hg]
  · intro h hg
    simp [HistoryInner.endGroup, hg]

/-- Witness for `grouping_collapses_to_one_undo`: pushing into an open
empty group stores the command in the group. -/
theorem grouping_collapses_to_one_undo_witness :
    ((HistoryInner.new 10).beginGroup).currentGroup = some [] ∧
    ((HistoryInner.new 10).beginGroup).push abcCmd1
      = { (HistoryInner.new 10).beginGroup with
          currentGroup := some ([] ++ [abcCmd1]) } := by
  refine ⟨rfl, ?_⟩
  exact (grouping_collapses_to_one_undo).1 ((HistoryInner.new 10).beginGroup)
    abcCmd1 [] rfl

/-- A non-grouped push keeps the undo stack within the size bound and
grows it by one until the bound is reached. -/
theorem push_length_min (h : HistoryInner) (c : Cmd)
    (hg : h.currentGroup = none) (hle : h.undoStack.length ≤ h.maxSize) :
    (h.push c).undoStack.length = min (h.undoStack.length + 1) h.maxSize := by
  simp only [HistoryInner.push, hg, HistoryInner.evict]
  split <;> rename_i hcond <;> simp_all
  omega

/-- A non-grouped push does not open a group and keeps the size bound. -/
theorem push_group_max (h : HistoryInner) (c : Cmd)
    (hg : h.currentGroup = none) :
    (h.push c).currentGroup = none ∧ (h.push c).maxSize = h.maxSize := by
  simp only [HistoryInner.push, hg, HistoryInner.evict]
  split <;> simp

/-- Folding pushes over a history with no open group: the undo stack
length is the old length plus the number of pushes, capped at the bound. -/
theorem foldl_push_length (cmds : List Cmd) :
    ∀ h : HistoryInner, h.currentGroup = none →
      h.undoStack.length ≤ h.maxSize →
      ((cmds.foldl HistoryInner.push h).undoStack.length
        = min (h.undoStack.length + cmds.length) h.maxSize) := by
  induction cmds with
  | nil => intro h hg hle; simpa using Nat.min_eq_left hle
  | cons c cs ih =>
      intro h hg hle
      have hg2 := (push_group_max h c hg).1
      have hm2 := (push_group_max h c hg).2
      have hlen := push_length_min h c hg hle
      have hle2 : (h.push c).undoStack.length ≤ (h.push c).maxSize := by
        omega
      have := ih (h.push c) hg2 hle2
      simp only [List.foldl_cons, List.length_cons]
      omega

/-- C3: with no group open, `push` clears the redo stack, appends the
command, keeps no group open, and when the stack exceeds the bound drops
the oldest (front) entry while moving the save point down by one (or
unsetting it from zero); consequently pushing more than `K` commands
into a fresh history bounded by `K` leaves exactly `K` undoable
entries. -/
theorem push_spec_and_history_bound :
    (∀ (h : HistoryInner) (c : Cmd), h.currentGroup = none →
      (h.push c).redoStack = [] ∧
      (h.push c).currentGroup = none ∧
      (h.undoStack.length + 1 ≤ h.maxSize →
        (h.push c).undoStack = h.undoStack ++ [c] ∧
        (h.push c).savePoint = h.savePoint) ∧
      (h.undoStack.length + 1 > h.maxSize →
        (h.push c).undoStack = (h.undoStack ++ [c]).drop 1 ∧
        (h.push c).savePoint =
          (match h.savePoint with
            | some sp => if 0 < sp then some (sp - 1) else none
            | none => none))) ∧
    (∀ (cmds : List Cmd) (K : Nat), K < cmds.length →
      (cmds.foldl HistoryInner.push (HistoryInner.new K)).undoStack.length
        = K) := by
  constructor
  · intro h c hg
    refine ⟨?_, ?_, ?_, ?_⟩
    · simp only [HistoryInner.push, hg, HistoryInner.evict]
      split <;> simp
    · exact (push_group_max h c hg).1
    · intro hfits
      simp only [HistoryInner.push, hg, HistoryInner.evict]
      rw [if_neg (by simp; omega)]
      exact ⟨rfl, rfl⟩
    · intro hover
      simp only [HistoryInner.push, hg, HistoryInner.evict]
      rw [if_pos (by simp; omega)]
      exact ⟨rfl, rfl⟩
  · intro cmds K hK
    have h0 := foldl_push_length cmds (HistoryInner.new K) rfl
      (by simp [HistoryInner.new])
    have e1 : (HistoryInner.new K).undoStack.length = 0 := rfl
    have e2 : (HistoryInner.new K).maxSize = K := rfl
    rw [e1, e2, Nat.min_def] at h0
    split at h0 <;> omega

/-- Witness for `push_spec_and_history_bound`: three pushes into a fresh
history bounded at 2 leave exactly 2 undoable entries, and a single push
into it clears redo and appends. -/
theorem push_spec_and_history_bound_witness :
    ((HistoryInner.new 2).currentGroup = none ∧
      ((HistoryInner.new 2).push abcCmd1).redoStack = []) ∧
    (2 < ([abcCmd1, abcCmd2, abcCmd3] : List Cmd).length ∧
      (([abcCmd1, abcCmd2, abcCmd3] : List Cmd).foldl HistoryInner.push
        (HistoryInner.new 2)).undoStack.length = 2) := by
  refine ⟨⟨rfl, ?_⟩, by decide, ?_⟩
  · exact ((push_spec_and_history_bound).1 (HistoryInner.new 2) abcCmd1
      rfl).1
  · exact (push_spec_and_history_bound).2 [abcCmd1, abcCmd2, abcCmd3] 2
      (by decide)

/-- Replace-all example state: buffer "foo foo foo", query "foo",
replacement "bar", fresh history. -/
def fooState : EState :=
  { buffer := ⟨[['f','o','o',' ','f','o','o',' ','f','o','o']]⟩
    cursor := (0, 0)
    history := HistoryInner.new 100
    search :=
      { query := ['f','o','o']
        replaceWith := ['b','a','r']
        caseSensitive := true
        matchList := []
        currentMatchIndex := none } }

/-- C2 (amended): replace-all pushes exactly one composite — built from
all matches in reverse document order, each capturing its old text from
the pre-replacement buffer — and in the spec's example replacing "foo"
with "bar" in "foo foo foo" yields "bar bar bar", an empty refreshed
match list, a single new history entry, and an undo that restores the
original text (sub-commands undone in reverse insertion order). -/
theorem replace_all_composite_spec :
    (∀ st : EState,
      find_matches st.buffer st.search.query st.search.caseSensitive ≠ [] →
      st.history.currentGroup = none →
      st.history.undoStack.length + 1 ≤ st.history.maxSize →
      (handleReplaceAll st).history.undoStack
        = st.history.undoStack ++
          [Cmd.composite (replaceAllCommands st
            (find_matches st.buffer st.search.query
              st.search.caseSensitive))]) ∧
    ((handleReplaceAll fooState).buffer
        = ⟨[['b','a','r',' ','b','a','r',' ','b','a','r']]⟩ ∧
      (handleReplaceAll fooState).search.matchList = [] ∧
      (handleReplaceAll fooState).history.undoStack.length = 1 ∧
      ((handleReplaceAll fooState).history.undoH
          (handleReplaceAll fooState).buffer
          (handleReplaceAll fooState).cursor).2.1
        = fooState.buffer ∧
      ((handleReplaceAll fooState).history.undoH
          (handleReplaceAll fooState).buffer
          (handleReplaceAll fooState).cursor).2.2.2 = true) := by
  refine ⟨?_, by decide, by decide, by decide, by decide, by decide⟩
  intro st hne hg hfits
  simp only [handleReplaceAll]
  rw [if_neg (by simpa [List.isEmpty_iff] using hne)]
  simp only [HistoryInner.push, hg, HistoryInner.evict]
  rw [if_neg (by simp; omega)]

/-- Witness for `replace_all_composite_spec`: the universal part applied
to the example state. -/
theorem replace_all_composite_spec_witness :
    (find_matches fooState.buffer fooState.search.query
        fooState.search.caseSensitive ≠ [] ∧
      fooState.history.currentGroup = none ∧
      fooState.history.undoStack.length + 1 ≤ fooState.history.maxSize) ∧
    (handleReplaceAll fooState).history.undoStack
      = fooState.history.undoStack ++
        [Cmd.composite (replaceAllCommands fooState
          (find_matches fooState.buffer fooState.search.query
            fooState.search.caseSensitive))] := by
  refine ⟨⟨by decide, rfl, by decide⟩, ?_⟩
  exact (replace_all_composite_spec).1 fooState (by decide) rfl (by decide)

/-- Replace-all counterexample state: buffer "abb", query "ab",
replacement "a". -/
def abbState : EState :=
  { buffer := ⟨[['a','b','b']]⟩
    cursor := (0, 0)
    history := HistoryInner.new 100
    search :=
      { query := ['a','b']
        replaceWith := ['a']
        caseSensitive := true
        matchList := []
        currentMatchIndex := none } }

/-- C2 counterexample: the replacement "a" contains no occurrence of the
query "ab", yet replace-all on "abb" produces "ab" and the refreshed
scan still finds one match — re-scanning after replace-all is not always
empty when the replacement does not contain the query, because a
replacement can recreate the query across its boundary. -/
theorem replace_all_zero_matches_counterexample :
    lineOccs ['a','b'] ['a'] = [] ∧
    (handleReplaceAll abbState).buffer = ⟨[['a','b']]⟩ ∧
    (handleReplaceAll abbState).search.matchList = [⟨0, 0⟩] := by
  decide

/-- C7 counterexample state: established window [0, 50] (line height 20,
viewport 200x800, previous scroll 280). -/
def scrollCEState : ScrollState :=
  ⟨0, 50, 14, 280, 200, 800, 20, false⟩

/-- C7 (amended): a scroll staying at least half the visible-line count
inside both window edges, with viewport dimensions within the 1.0
epsilon, leaves the stored window untouched and does not clear the
cache; and the window is replaced by the margin-padded candidate (with
the cache cleared) when the viewport size changes beyond the epsilon, or
when the scroll offset changes by more than 0.1 and the window is
degenerate or a margin boundary is crossed — crossing the lower boundary
triggering only when the stored window start is positive (the source's
top-of-file special case). -/
theorem scroll_window_stability_and_rewindow (st : ScrollState)
    (ns nh nw : ℚ) (mult : Nat) :
    (st.cacheWindowStartLine < st.cacheWindowEndLine →
      st.cacheWindowStartLine + visibleLinesCount nh st.lineHeight / 2
          ≤ firstVisibleLine ns st.lineHeight →
      firstVisibleLine ns st.lineHeight + visibleLinesCount nh st.lineHeight
          ≤ st.cacheWindowEndLine - visibleLinesCount nh st.lineHeight / 2 →
      ¬ ratAbs (st.viewportHeight - nh) > 1 →
      ¬ ratAbs (st.viewportWidth - nw) > 1 →
      (handleScrolled st ns nh nw mult).cacheWindowStartLine
          = st.cacheWindowStartLine ∧
      (handleScrolled st ns nh nw mult).cacheWindowEndLine
          = st.cacheWindowEndLine ∧
      (handleScrolled st ns nh nw mult).cacheCleared = false) ∧
    ((ratAbs (st.viewportHeight - nh) > 1 ∨
      ratAbs (st.viewportWidth - nw) > 1 ∨
      (ratAbs (st.viewportScroll - ns) > 1/10 ∧
        (¬ st.cacheWindowStartLine < st.cacheWindowEndLine ∨
          (0 < st.cacheWindowStartLine ∧
            firstVisibleLine ns st.lineHeight <
              st.cacheWindowStartLine +
                visibleLinesCount nh st.lineHeight / 2) ∨
          st.cacheWindowEndLine - visibleLinesCount nh st.lineHeight / 2 <
            firstVisibleLine ns st.lineHeight +
              visibleLinesCount nh st.lineHeight))) →
      (handleScrolled st ns nh nw mult).cacheWindowStartLine
          = firstVisibleLine ns st.lineHeight -
              visibleLinesCount nh st.lineHeight * mult ∧
      (handleScrolled st ns nh nw mult).cacheWindowEndLine
          = firstVisibleLine ns st.lineHeight +
              visibleLinesCount nh st.lineHeight +
              visibleLinesCount nh st.lineHeight * mult ∧
      (handleScrolled st ns nh nw mult).cacheCleared = true) := by
  constructor
  · intro hest hlow hup hh hw
    simp only [handleScrolled, if_pos hest]
    split
    · rename_i hout
      exfalso
      rcases hout with h | h | ⟨hc, hp⟩
      · exact hh h
      · exact hw h
      · rcases hp with ⟨h0, hlt⟩ | hlt <;> omega
    · exact ⟨rfl, rfl, rfl⟩
  · intro hcond
    by_cases hest : st.cacheWindowStartLine < st.cacheWindowEndLine
    · simp only [handleScrolled, if_pos hest]
      split
      · exact ⟨rfl, rfl, rfl⟩
      · rename_i hout
        exfalso
        apply hout
        rcases hcond with h | h | ⟨hc, hp⟩
        · exact Or.inl h
        · exact Or.inr (Or.inl h)
        · refine Or.inr (Or.inr ⟨hc, ?_⟩)
          rcases hp with h0 | h0 | h0
          · exact absurd hest h0
          · exact Or.inl h0
          · exact Or.inr h0
    · simp only [handleScrolled, if_neg hest]
      split
      · exact ⟨rfl, rfl, rfl⟩
      · rename_i hout
        exfalso
        apply hout
        rcases hcond with h | h | ⟨hc, _⟩
        · exact Or.inl h
        · exact Or.inr (Or.inl h)
        · exact Or.inr (Or.inr ⟨hc, trivial⟩)

/-- Witness for `scroll_window_stability_and_rewindow`: from the
established window [0, 50], scrolling from 280 to 288 (first visible
line 14, at least half the visible count inside both edges) keeps the
stored window. -/
theorem scroll_window_stability_and_rewindow_witness :
    (scrollCEState.cacheWindowStartLine <
        scrollCEState.cacheWindowEndLine ∧
      scrollCEState.cacheWindowStartLine +
          visibleLinesCount 200 scrollCEState.lineHeight / 2
        ≤ firstVisibleLine 288 scrollCEState.lineHeight ∧
      firstVisibleLine 288 scrollCEState.lineHeight +
          visibleLinesCount 200 scrollCEState.lineHeight
        ≤ scrollCEState.cacheWindowEndLine -
            visibleLinesCount 200 scrollCEState.lineHeight / 2 ∧
      ¬ ratAbs (scrollCEState.viewportHeight - 200) > 1 ∧
      ¬ ratAbs (scrollCEState.viewportWidth - 800) > 1) ∧
    (handleScrolled scrollCEState 288 200 800 2).cacheWindowStartLine
        = scrollCEState.cacheWindowStartLine := by
  have hvis : visibleLinesCount 200 (20 : ℚ) = 12 := by
    norm_num [visibleLinesCount, ratCeil, ratFloor]
    omega
  have hfv : firstVisibleLine 288 (20 : ℚ) = 14 := by
    norm_num [firstVisibleLine, ratFloor]
    omega
  have h1 : scrollCEState.cacheWindowStartLine <
      scrollCEState.cacheWindowEndLine := by decide
  have h2 : scrollCEState.cacheWindowStartLine +
      visibleLinesCount 200 scrollCEState.lineHeight / 2
        ≤ firstVisibleLine 288 scrollCEState.lineHeight := by
    show (0 : Nat) + visibleLinesCount 200 20 / 2
      ≤ firstVisibleLine 288 20
    rw [hvis, hfv]
    omega
  have h3 : firstVisibleLine 288 scrollCEState.lineHeight +
      visibleLinesCount 200 scrollCEState.lineHeight
        ≤ scrollCEState.cacheWindowEndLine -
            visibleLinesCount 200 scrollCEState.lineHeight / 2 := by
    show firstVisibleLine 288 20 + visibleLinesCount 200 20
      ≤ 50 - visibleLinesCount 200 20 / 2
    rw [hvis, hfv]
    omega
  have h4 : ¬ ratAbs (scrollCEState.viewportHeight - 200) > 1 := by
    show ¬ ratAbs ((200 : ℚ) - 200) > 1
    norm_num [ratAbs]
  have h5 : ¬ ratAbs (scrollCEState.viewportWidth - 800) > 1 := by
    show ¬ ratAbs ((800 : ℚ) - 800) > 1
    norm_num [ratAbs]
  exact ⟨⟨h1, h2, h3, h4, h5⟩,
    ((scroll_window_stability_and_rewindow scrollCEState 288 200 800 2).1
      h1 h2 h3 h4 h5).1⟩

/-- C7 counterexample: from the established window [0, 50], scrolling to
offset 100 puts the first visible line (5) below window start plus half
the visible-line count (6) — per the claim a boundary crossing that must
replace the window with the candidate [0, 41] and clear the cache — yet
the stored window stays [0, 50] and the cache is not cleared, because
the source suppresses the lower-boundary trigger when the stored window
start is 0. -/
theorem scroll_window_counterexample :
    scrollCEState.cacheWindowStartLine = 0 ∧
    scrollCEState.cacheWindowEndLine = 50 ∧
    scrollCEState.lineHeight = 20 ∧
    scrollCEState.viewportHeight = 200 ∧
    scrollCEState.viewportWidth = 800 ∧
    firstVisibleLine 100 20 = 5 ∧
    visibleLinesCount 200 20 = 12 ∧
    (5 : Nat) < 0 + 12 / 2 ∧
    ratAbs ((200 : ℚ) - 200) ≤ 1 ∧
    ratAbs ((800 : ℚ) - 800) ≤ 1 ∧
    ratAbs ((280 : ℚ) - 100) > 1/10 ∧
    (5 - 12 * 2 : Nat) = 0 ∧
    (5 + 12 + 12 * 2 : Nat) = 41 ∧
    (handleScrolled scrollCEState 100 200 800 2).cacheWindowStartLine = 0 ∧
    (handleScrolled scrollCEState 100 200 800 2).cacheWindowEndLine = 50 ∧
    (handleScrolled scrollCEState 100 200 800 2).cacheCleared = false ∧
    (50 : Nat) ≠ 41 := by
  have hvis : visibleLinesCount 200 (20 : ℚ) = 12 := by
    norm_num [visibleLinesCount, ratCeil, ratFloor]
    omega
  have hfv : firstVisibleLine 100 (20 : ℚ) = 5 := by
    norm_num [firstVisibleLine, ratFloor]
    omega
  have hrw : handleScrolled scrollCEState 100 200 800 2
      = ⟨0, 50, 14, 100, 200, 800, 20, false⟩ := by
    simp only [handleScrolled, scrollCEState]
    rw [if_neg ?hno]
    case hno =>
      rintro (h | h | ⟨hc, hp⟩)
      · exact absurd h (by norm_num [ratAbs])
      · exact absurd h (by norm_num [ratAbs])
      · simp only [if_pos (by decide : (0 : Nat) < 50)] at hp
        rw [hvis, hfv] at hp
        rcases hp with ⟨h0, _⟩ | h0 <;> omega
  refine ⟨rfl, rfl, rfl, rfl, rfl, hfv, hvis, by decide, ?_, ?_, ?_,
    by decide, by decide, ?_, ?_, ?_, by decide⟩
  · norm_num [ratAbs]
  · norm_num [ratAbs]
  · norm_num [ratAbs]
  · rw [hrw]
  · rw [hrw]
  · rw [hrw]

